import Mathlib

/-
Verification of the tool-chain execution engine and streaming aggregator of
the enzymeml-ts repository (src/src/v2.ts, lines 600-1273).

The TypeScript source is shallowly embedded:
* JavaScript values that flow through the engine (parsed JSON arguments,
  handler results) are modelled by the inductive type `JsValue`; the
  `JSON.stringify` builtin is modelled by `stringify` (returning `none` where
  the builtin returns `undefined`, i.e. on `undefined` and function values;
  tree-shaped values can never be circular, so the throwing case of the
  builtin is unreachable in the model).
* The `JSON.parse` builtin is an external primitive and is passed as a
  parameter `parseJson : String → Option JsValue` (`none` models a throw).
* The asynchronous handler of one tool, as observed through `pTimeout`
  inside `timedExecution`, is modelled by a function from the parsed
  arguments and the 1-based attempt number to an `ExecOutcome`: either a
  result value or a failure message (a rejection's `String(err)` form, or
  the timeout message).  This captures that distinct attempts may behave
  differently while keeping the execution deterministic per attempt.
* `pRetry` (dependency p-retry) is modelled by `retryExec`: the wrapped
  function runs once, and on an ordinary failure the `onFailedAttempt`
  callback fires (which the source uses to emit a `tool_retry` event) and,
  while retries remain, the function runs again; the callback also fires on
  the final failed attempt, after which the last error is thrown.  The
  special p-retry abort classes (AbortError, TypeError) are outside the
  model; `err` models an ordinary retryable Error.
* `PQueue` (dependency p-queue) is modelled for the concurrency claim by a
  small-step scheduler (`SchedStep`): a task may start only while fewer
  than `concurrency` tasks are running.
* Wall-clock reads (`Date.now()`) are passed in as explicit parameters
  where an emitted payload depends on them; timestamps inside the per-event
  `meta` record and the `durationMs` of `tool_success` are not constrained
  by any claim and are omitted from the event model, as is the `meta`
  record itself.
-/

/-- A JavaScript runtime value as seen by the engine: the JSON fragment
(null, booleans, numbers, strings, arrays, objects) plus the values the
`sizeHint` and `JSON.stringify` code paths distinguish: `undefined`,
`Uint8Array` byte buffers, and non-serializable values (functions/symbols,
for which `JSON.stringify` returns `undefined`).  Numbers are modelled as
integers; no claim performs numeric arithmetic on payloads. -/
inductive JsValue where
  | undefined
  | null
  | bool (b : Bool)
  | num (n : Int)
  | str (s : String)
  | arr (elems : List JsValue)
  | bytes (data : List Nat)
  | func
  | obj (fields : List (String × JsValue))
deriving Repr

/-- One hexadecimal digit, lower case (as printed by `JSON.stringify`'s
unicode escapes). -/
def hexDigit (n : Nat) : Char :=
  if n < 10 then Char.ofNat (n + 48) else Char.ofNat (n + 87)

/-- Escaping of one character inside a JSON string literal, following
`JSON.stringify`. -/
def escapeChar (c : Char) : String :=
  if c = '"' then "\\\""
  else if c = '\\' then "\\\\"
  else if c = '\x08' then "\\b"
  else if c = '\x09' then "\\t"
  else if c = '\x0a' then "\\n"
  else if c = '\x0c' then "\\f"
  else if c = '\x0d' then "\\r"
  else if c.toNat < 32 then "\\u00" ++ String.mk [hexDigit (c.toNat / 16), hexDigit (c.toNat % 16)]
  else String.singleton c

/-- A JSON string literal with quotes, following `JSON.stringify`. -/
def quoteStr (s : String) : String :=
  "\"" ++ String.join (s.toList.map escapeChar) ++ "\""

/-- The fields `JSON.stringify` prints for a `Uint8Array`: index/value
pairs (a typed array serializes like a plain object of its indices). -/
def bytesFields : List Nat → Nat → List String
  | [], _ => []
  | b :: rest, i => (quoteStr (toString i) ++ ":" ++ toString b) :: bytesFields rest (i + 1)

mutual

/-- Model of the `JSON.stringify` builtin on tree-shaped runtime values.
`none` models the builtin returning `undefined` (on `undefined` and on
function values); inside arrays such elements print as `null`, inside
objects such fields are omitted — as the builtin does. -/
def stringify : JsValue → Option String
  | .undefined => none
  | .func => none
  | .null => some "null"
  | .bool b => some (if b then "true" else "false")
  | .num n => some (toString n)
  | .str s => some (quoteStr s)
  | .arr xs => some ("[" ++ String.intercalate "," (stringifyElems xs) ++ "]")
  | .bytes data => some ("\x7b" ++ String.intercalate "," (bytesFields data 0) ++ "\x7d")
  | .obj fs => some ("\x7b" ++ String.intercalate "," (stringifyFields fs) ++ "\x7d")

/-- Array elements under `JSON.stringify`: non-serializable elements print
as `null`. -/
def stringifyElems : List JsValue → List String
  | [] => []
  | x :: rest => ((stringify x).getD "null") :: stringifyElems rest

/-- Object fields under `JSON.stringify`: non-serializable fields are
omitted. -/
def stringifyFields : List (String × JsValue) → List String
  | [] => []
  | (k, v) :: rest =>
    match stringify v with
    | none => stringifyFields rest
    | some s => (quoteStr k ++ ":" ++ s) :: stringifyFields rest

end

/-- Translation of the `sizeHint` helper of `runToolChain`
(src/src/v2.ts lines 996-1007):

    const sizeHint = (x: unknown): number | undefined => \x7b
        try \x7b
            if (x == null) return 0;
            if (typeof x === "string") return x.length;
            if (Array.isArray(x)) return x.length;
            if (x instanceof Uint8Array) return x.byteLength;
            const s = JSON.stringify(x);
            return s?.length;
        \x7d catch \x7b return undefined; \x7d
    \x7d;

`x == null` is loose equality, true exactly for `null` and `undefined`.
The function is total by construction (`Option Nat` models
`number | undefined`); the try/catch never fires on tree-shaped values. -/
def sizeHint (x : JsValue) : Option Nat :=
  match x with
  | .undefined => some 0
  | .null => some 0
  | .str s => some s.length
  | .arr xs => some xs.length
  | .bytes data => some data.length
  | x => (stringify x).map String.length

/-- The size-hint dispatch exactly as claim C8 words it (string length,
else array length, else byte length, else JSON-serialization length, else
undefined) — written from the claim, to be compared with `sizeHint`, which
is written from the source.  Note it has no clause returning 0 for
null/undefined. -/
def sizeHintClaimed (x : JsValue) : Option Nat :=
  match x with
  | .str s => some s.length
  | .arr xs => some xs.length
  | .bytes data => some data.length
  | x => (stringify x).map String.length

/-- The size-hint dispatch as amended: JavaScript's `x == null` check comes
first, so `null` and `undefined` report size 0 before any other clause;
the remaining clauses are as the claim states them. -/
def sizeHintAmended (x : JsValue) : Option Nat :=
  match x with
  | .undefined => some 0
  | .null => some 0
  | .str s => some s.length
  | .arr xs => some xs.length
  | .bytes data => some data.length
  | x => (stringify x).map String.length

/-- C8, counterexample: on the input `undefined` — which is not a string,
not an array, not a Uint8Array, and whose JSON serialization is
`undefined` — the claim's dispatch yields `undefined`, but the code
returns 0 (the `x == null` branch the claim omits). -/
theorem sizeHint_claim_counterexample :
    sizeHint JsValue.undefined = some 0
    ∧ sizeHintClaimed JsValue.undefined = none
    ∧ sizeHint JsValue.undefined ≠ sizeHintClaimed JsValue.undefined := by
  refine ⟨rfl, rfl, ?_⟩
  simp [sizeHint, sizeHintClaimed, stringify]

/-- C8, amended: `sizeHint` is a total function (it exists as a Lean
function into `Option Nat`, hence never throws) computing a prioritized
type dispatch: `null`/`undefined` first return 0, then strings return
their length, then arrays their length, then Uint8Arrays their byte
length, and every other value the length of its JSON serialization —
`none` (undefined) when serialization yields no string. -/
theorem sizeHint_eq_amended_dispatch (x : JsValue) :
    sizeHint x = sizeHintAmended x := by
  cases x <;> rfl

/-- A `function_call` item of the planning response (the source type
`Extract<ResponseOutputItem, { type: "function_call" }>` restricted to the
fields the engine reads).  `arguments` is the raw JSON argument text;
`none` models a null/undefined field (JavaScript truthiness also treats
the empty string like an absent value at the parse site). -/
structure ToolCall where
  call_id : String
  name : String
  arguments : Option String

/-- The outcome of one timed invocation of a handler (the value of
`await pTimeout(Promise.resolve().then(() => handler(args)), ...)`):
either the handler's result value, or a failure message — the `String(e)`
rendering of a rejection/throw, or the timeout message. -/
inductive ExecOutcome where
  | ok (v : JsValue)
  | err (msg : String)

/-- A resolved tool handler, observed through the timeout wrapper:
parsed arguments and 1-based attempt number determine the attempt's
outcome. -/
def HandlerB : Type := JsValue → Nat → ExecOutcome

/-- The tool-chain lifecycle events (source type `ToolChainEvent`,
src/src/v2.ts lines 662-671), restricted to the payload fields that any
claim constrains.  The per-event `meta` record, `durationMs` of
`tool_success`, `detail` of `tool_error` and the message of `tool_retry`
carry wall-clock or diagnostic data no claim constrains and are omitted;
`nextDelayMs` is kept because the source computes it as
`(e as any).nextDelay ?? 0` — p-retry errors carry no `nextDelay` field,
so it is always 0. -/
inductive ToolChainEvent where
  | chainStart (inputSize : Nat)
  | planningResult (toolCount : Nat) (toolNames : List String) (callIds : List String)
  | noTools
  | toolStart (callId name : String) (index : Nat) (args : JsValue)
  | toolRetry (callId name : String) (index : Nat) (attempt : Nat) (nextDelayMs : Nat)
  | toolSuccess (callId name : String) (index : Nat) (resultSize : Option Nat)
  | toolError (callId name : String) (index : Nat) (error : String)
  | outputsAppended (count : Nat) (elapsedMs : Nat)
  | chainComplete (outputSize : Nat)

/-- The value `executeSingleTool` resolves with:
`{ call_id: string; output: string }`, except that on the success path the
output is `JSON.stringify(out)`, which can be `undefined` — hence
`Option String` here; `executeToolCalls` later normalizes with `?? ""`. -/
structure SingleResult where
  call_id : String
  output : Option String

/-- The external callables `executeSingleTool` depends on: the `JSON.parse`
builtin (`none` models a throw) and the caller-supplied handler map
(`handlerFor = (name) => opts.handlers?.[name]`), plus the behaviour of the
hardcoded `SearchDatabaseTool` (an opaque network-calling tool, declared
out of scope by the spec). -/
structure ExecCtx where
  parseJson : String → Option JsValue
  handlerFor : String → Option HandlerB
  searchDB : HandlerB

/-- Translation of the argument-parsing step (line 1185):
`args = call.arguments ? JSON.parse(call.arguments) : {}` — a missing or
empty (falsy) argument string parses as the empty object, otherwise
`JSON.parse` runs and `none` models its throw. -/
def parseArgs (parseJson : String → Option JsValue) : Option String → Option JsValue
  | none => some (.obj [])
  | some s => if s = "" then some (.obj []) else parseJson s

/-- Translation of the handler-resolution expression (line 1202):
`handlerFor(call.name) ?? (call.name === "search_databases" ? SearchDatabaseTool : undefined)`. -/
def resolveHandler (handlerFor : String → Option HandlerB) (searchDB : HandlerB)
    (name : String) : Option HandlerB :=
  match handlerFor name with
  | some h => some h
  | none => if name = "search_databases" then some searchDB else none

/-- What one `pRetry(timedExecution, ...)` run produces: the lifecycle
events emitted from inside it (one `tool_retry` per failed attempt via
`onFailedAttempt`, one `tool_success` on the successful attempt), the
final result (`Except.error` models the rethrown last error after
exhaustion), and how many times the handler was invoked. -/
structure RetryOut where
  events : List ToolChainEvent
  result : Except String JsValue
  invocations : Nat

/-- Model of `pRetry(timedExecution, { retries, ..., onFailedAttempt })`
(lines 1236-1255) around the timed execution (lines 1219-1234).  `attempt`
is p-retry's 1-based `attemptNumber`, `fuel` the retries still allowed.
On success the timed execution emits `tool_success` with
`resultSize = sizeHint(out)`.  On failure `onFailedAttempt` fires — on
every failed attempt, including the final one — emitting `tool_retry` with
payload `attempt = e.attemptNumber + 1` and `nextDelayMs = 0`; when fuel
remains the handler runs again, otherwise the last error is thrown. -/
def retryExec (cid nm : String) (idx : Nat) (run : Nat → ExecOutcome) :
    Nat → Nat → RetryOut
  | attempt, 0 =>
    match run attempt with
    | .ok v => ⟨[.toolSuccess cid nm idx (sizeHint v)], .ok v, 1⟩
    | .err m => ⟨[.toolRetry cid nm idx (attempt + 1) 0], .error m, 1⟩
  | attempt, fuel + 1 =>
    match run attempt with
    | .ok v => ⟨[.toolSuccess cid nm idx (sizeHint v)], .ok v, 1⟩
    | .err m =>
      let rest := retryExec cid nm idx run (attempt + 1) fuel
      ⟨.toolRetry cid nm idx (attempt + 1) 0 :: rest.events, rest.result, rest.invocations + 1⟩

/-- The `raw` field of the invalid-arguments envelope:
`JSON.stringify({ error, raw: call.arguments })` receives the original
(possibly undefined) argument text. -/
def rawVal : Option String → JsValue
  | some s => .str s
  | none => .undefined

/-- Lines 1216-1272 of `executeSingleTool`: the timed, retried invocation
of one already-resolved handler `h`, preceded by the `tool_start` event
that line 1199 emitted.  On exhaustion emits `tool_error` and returns
`JSON.stringify({ error: String(err) })`; on success returns
`JSON.stringify(out)`. -/
def execWithHandler (h : HandlerB) (retries : Nat) (call : ToolCall) (index : Nat)
    (args : JsValue) : List ToolChainEvent × SingleResult :=
  let startEv := ToolChainEvent.toolStart call.call_id call.name index args
  let r := retryExec call.call_id call.name index (h args) 1 retries
  match r.result with
  | .ok v => (startEv :: r.events, ⟨call.call_id, stringify v⟩)
  | .error m =>
    (startEv :: (r.events ++ [.toolError call.call_id call.name index m]),
     ⟨call.call_id, stringify (.obj [("error", .str m)])⟩)

/-- Lines 1199-1272 of `executeSingleTool`: everything after a successful
argument parse.  Emits `tool_start` with the parsed args, resolves the
handler (unknown tool → `tool_error` and an unknown-tool envelope, no
retry), otherwise runs the retried timed execution `execWithHandler`. -/
def execWithArgs (handlerFor : String → Option HandlerB) (searchDB : HandlerB)
    (retries : Nat) (call : ToolCall) (index : Nat) (args : JsValue) :
    List ToolChainEvent × SingleResult :=
  match resolveHandler handlerFor searchDB call.name with
  | none =>
    ([ToolChainEvent.toolStart call.call_id call.name index args,
      .toolError call.call_id call.name index ("Unknown tool: " ++ call.name)],
     ⟨call.call_id, stringify (.obj [("error", .str ("Unknown tool: " ++ call.name)), ("args", args)])⟩)
  | some h => execWithHandler h retries call index args

/-- Translation of `executeSingleTool` (src/src/v2.ts lines 1170-1273).
A failed argument parse is terminal: `tool_error` is emitted (no
`tool_start`, no retry) and the result is
`JSON.stringify({ error: "Invalid JSON arguments", raw: call.arguments })`.
Otherwise execution proceeds as `execWithArgs`.  The function is total:
every failure path resolves to a `SingleResult` — the model of "never
throws past its own boundary". -/
def executeSingleTool (ctx : ExecCtx) (retries : Nat) (call : ToolCall) (index : Nat) :
    List ToolChainEvent × SingleResult :=
  match parseArgs ctx.parseJson call.arguments with
  | none =>
    ([.toolError call.call_id call.name index "Invalid JSON arguments"],
     ⟨call.call_id,
      stringify (.obj [("error", .str "Invalid JSON arguments"), ("raw", rawVal call.arguments)])⟩)
  | some args => execWithArgs ctx.handlerFor ctx.searchDB retries call index args

/-- The `attempt` payloads of the `tool_retry` events of an event list, in
emission order. -/
def retryAttempts : List ToolChainEvent → List Nat
  | [] => []
  | .toolRetry _ _ _ a _ :: rest => a :: retryAttempts rest
  | _ :: rest => retryAttempts rest

theorem retryAttempts_append (l1 l2 : List ToolChainEvent) :
    retryAttempts (l1 ++ l2) = retryAttempts l1 ++ retryAttempts l2 := by
  induction l1 with
  | nil => rfl
  | cons e rest ih => cases e <;> simp [retryAttempts, ih]

theorem range_map_shift (n a : Nat) :
    (List.range (n + 1)).map (fun k => a + k + 1)
      = (a + 1) :: (List.range n).map (fun k => (a + 1) + k + 1) := by
  rw [List.range_succ_eq_map, List.map_cons, List.map_map]
  refine congrArg₂ _ (by omega) ?_
  refine List.map_congr_left ?_
  intro k _
  simp only [Function.comp]
  omega

/-- Behaviour of the retry loop on a handler every invocation of which
fails with an ordinary error: the handler runs `fuel + 1` times (initial
attempt plus `fuel` retries), one `tool_retry` event fires per failed
attempt — including the final one — with consecutive (hence strictly
increasing) attempt payloads, and the thrown error is the last attempt's
error. -/
theorem retryExec_always_fails (cid nm : String) (idx : Nat) (run : Nat → ExecOutcome)
    (hfail : ∀ a, ∃ m, run a = .err m) (fuel : Nat) :
    ∀ attempt : Nat,
      (retryExec cid nm idx run attempt fuel).invocations = fuel + 1
      ∧ retryAttempts (retryExec cid nm idx run attempt fuel).events
          = (List.range (fuel + 1)).map (fun k => attempt + k + 1)
      ∧ ∃ m, (retryExec cid nm idx run attempt fuel).result = .error m
          ∧ run (attempt + fuel) = .err m := by
  induction fuel with
  | zero =>
    intro attempt
    obtain ⟨m, hm⟩ := hfail attempt
    refine ⟨?_, ?_, m, ?_, ?_⟩ <;>
      simp [retryExec, hm, retryAttempts, List.range_succ]
  | succ fuel ih =>
    intro attempt
    obtain ⟨m, hm⟩ := hfail attempt
    obtain ⟨hinv, hatt, m', hres, hrun⟩ := ih (attempt + 1)
    refine ⟨?_, ?_, m', ?_, ?_⟩
    · simp [retryExec, hm, hinv]
    · simp only [retryExec, hm]
      simp [retryAttempts, hatt, range_map_shift]
    · simp [retryExec, hm, hres]
    · have : attempt + (fuel + 1) = attempt + 1 + fuel := by omega
      rw [this]
      exact hrun

/-- Concrete external context for exercising the retry path: `JSON.parse`
never succeeds (irrelevant: the argument text is absent), the handler map
resolves every name to a handler whose every invocation rejects with
"boom", and the default search tool also fails. -/
def ctxRetry : ExecCtx :=
  ⟨fun _ => none, fun _ => some (fun _ _ => .err "boom"), fun _ _ => .err "unused"⟩

/-- A tool call with no argument text (parses as the empty object). -/
def callRetry : ToolCall := ⟨"call_1", "mytool", none⟩

/-- C2, counterexample: with a retry budget of 0 and a handler that always
rejects, the claim requires zero `tool_retry` events, but `executeSingleTool`
emits one — p-retry's `onFailedAttempt` fires on every failed attempt,
including the final one, so an always-failing handler produces
`retries + 1` retry events, not `retries`. -/
theorem executeSingleTool_retry_count_counterexample :
    retryAttempts (executeSingleTool ctxRetry 0 callRetry 0).1 = [2]
    ∧ (retryAttempts (executeSingleTool ctxRetry 0 callRetry 0).1).length = 1
    ∧ (1 : Nat) ≠ 0 := by
  refine ⟨rfl, rfl, by decide⟩

/-- C2, amended: for a tool call with parseable arguments whose resolved
handler rejects on every invocation, `executeSingleTool` invokes the
handler exactly `retries + 1` times and then returns an error ToolResult
(a JSON payload with an `error` field); it emits `tool_retry` events
exactly `retries + 1` times — one per failed attempt, including the final
one — with strictly increasing attempt numbers (the k-th event carries
attempt `k + 1`). -/
theorem executeSingleTool_retry_exhaustion (ctx : ExecCtx) (retries : Nat)
    (call : ToolCall) (index : Nat) (args : JsValue) (h : HandlerB)
    (hargs : parseArgs ctx.parseJson call.arguments = some args)
    (hres : resolveHandler ctx.handlerFor ctx.searchDB call.name = some h)
    (hfail : ∀ a, ∃ m, h args a = .err m) :
    (retryExec call.call_id call.name index (h args) 1 retries).invocations = retries + 1
    ∧ retryAttempts (executeSingleTool ctx retries call index).1
        = (List.range (retries + 1)).map (fun k => k + 2)
    ∧ List.Pairwise (· < ·) (retryAttempts (executeSingleTool ctx retries call index).1)
    ∧ ∃ m, (executeSingleTool ctx retries call index).2.output
        = stringify (.obj [("error", .str m)]) := by
  obtain ⟨hinv, hatt, m, hresult, -⟩ :=
    retryExec_always_fails call.call_id call.name index (h args) hfail retries 1
  have hone : (List.range (retries + 1)).map (fun k => 1 + k + 1)
      = (List.range (retries + 1)).map (fun k => k + 2) :=
    List.map_congr_left (fun k _ => by omega)
  have hunfold : executeSingleTool ctx retries call index
      = execWithHandler h retries call index args := by
    simp [executeSingleTool, hargs, execWithArgs, hres]
  have hevents : retryAttempts (executeSingleTool ctx retries call index).1
      = (List.range (retries + 1)).map (fun k => k + 2) := by
    rw [hunfold]
    simp only [execWithHandler, hresult]
    simp [retryAttempts, retryAttempts_append, hatt, hone]
  refine ⟨hinv, hevents, ?_, m, ?_⟩
  · rw [hevents]
    refine List.pairwise_map.mpr ?_
    exact (List.pairwise_lt_range _).imp (fun hab => by omega)
  · rw [hunfold]
    simp [execWithHandler, hresult]

/-- C2, witness: retry budget 1, always-failing handler — two handler
invocations, two `tool_retry` events with attempts 2 then 3 (strictly
increasing), and an error envelope result. -/
theorem executeSingleTool_retry_exhaustion_witness :
    (retryExec "call_1" "mytool" 0
        ((fun (_ : JsValue) (_ : Nat) => ExecOutcome.err "boom") (JsValue.obj [])) 1 1).invocations = 2
    ∧ retryAttempts (executeSingleTool ctxRetry 1 callRetry 0).1 = [2, 3]
    ∧ (executeSingleTool ctxRetry 1 callRetry 0).2.output
        = stringify (.obj [("error", .str "boom")]) := by
  have h := executeSingleTool_retry_exhaustion ctxRetry 1 callRetry 0 (.obj [])
    (fun _ _ => .err "boom") rfl rfl (fun _ => ⟨"boom", rfl⟩)
  exact ⟨h.1, h.2.1.trans (by decide), rfl⟩

/-- C3: for a tool call whose raw argument text is present (non-empty) but
fails `JSON.parse`, `executeSingleTool` neither retries nor throws: its
whole behaviour is one `tool_error` event and a ToolResult whose output is
the serialization of an object with an `error` field and the raw argument
text under `raw` — and every event it emits is that `tool_error` (so in
particular no `tool_retry` and no handler invocation).  The never-throws
half of the claim is inherent in the embedding: `executeSingleTool` is a
total function into `List ToolChainEvent × SingleResult`. -/
theorem executeSingleTool_invalid_json (ctx : ExecCtx) (retries : Nat)
    (call : ToolCall) (index : Nat) (s : String)
    (hs : call.arguments = some s) (hne : s ≠ "") (hparse : ctx.parseJson s = none) :
    executeSingleTool ctx retries call index
      = ([.toolError call.call_id call.name index "Invalid JSON arguments"],
         ⟨call.call_id,
          stringify (.obj [("error", .str "Invalid JSON arguments"), ("raw", .str s)])⟩)
    ∧ (∃ payload : List (String × JsValue),
        (executeSingleTool ctx retries call index).2.output = stringify (.obj payload)
        ∧ ("error", JsValue.str "Invalid JSON arguments") ∈ payload
        ∧ ("raw", JsValue.str s) ∈ payload)
    ∧ ∀ e ∈ (executeSingleTool ctx retries call index).1,
        e = .toolError call.call_id call.name index "Invalid JSON arguments" := by
  have hmain : executeSingleTool ctx retries call index
      = ([.toolError call.call_id call.name index "Invalid JSON arguments"],
         ⟨call.call_id,
          stringify (.obj [("error", .str "Invalid JSON arguments"), ("raw", .str s)])⟩) := by
    simp [executeSingleTool, hs, parseArgs, hne, hparse, rawVal]
  refine ⟨hmain, ⟨[("error", .str "Invalid JSON arguments"), ("raw", .str s)], ?_, ?_, ?_⟩, ?_⟩
  · rw [hmain]
  · simp
  · simp
  · rw [hmain]
    intro e he
    simpa using he

/-- Concrete context for the invalid-JSON witness: `JSON.parse` throws on
every input. -/
def ctxBadJson : ExecCtx := ⟨fun _ => none, fun _ => none, fun _ _ => .err "unused"⟩

/-- A tool call whose argument text is present but malformed. -/
def callBadJson : ToolCall := ⟨"call_3", "mytool", some "oops"⟩

/-- C3, witness: the malformed argument text "oops" terminally produces the
invalid-arguments error envelope carrying the raw text. -/
theorem executeSingleTool_invalid_json_witness :
    executeSingleTool ctxBadJson 2 callBadJson 0
      = ([.toolError "call_3" "mytool" 0 "Invalid JSON arguments"],
         ⟨"call_3",
          stringify (.obj [("error", .str "Invalid JSON arguments"), ("raw", .str "oops")])⟩) :=
  (executeSingleTool_invalid_json ctxBadJson 2 callBadJson 0 "oops" rfl (by decide) rfl).1

/-- C10: a tool call whose raw argument text is absent or the empty string
is not an argument-parsing failure: the arguments parse as the empty
object, `tool_start` fires with args `{}` as the first event, and
execution proceeds to handler resolution and the execution phase
(`execWithArgs`) instead of returning the invalid-arguments envelope. -/
theorem executeSingleTool_empty_args (ctx : ExecCtx) (retries : Nat)
    (call : ToolCall) (index : Nat)
    (h : call.arguments = none ∨ call.arguments = some "") :
    parseArgs ctx.parseJson call.arguments = some (.obj [])
    ∧ executeSingleTool ctx retries call index
        = execWithArgs ctx.handlerFor ctx.searchDB retries call index (.obj [])
    ∧ ∃ rest, (executeSingleTool ctx retries call index).1
        = .toolStart call.call_id call.name index (.obj []) :: rest := by
  have hp : parseArgs ctx.parseJson call.arguments = some (.obj []) := by
    rcases h with h | h <;> simp [h, parseArgs]
  have hu : executeSingleTool ctx retries call index
      = execWithArgs ctx.handlerFor ctx.searchDB retries call index (.obj []) := by
    simp [executeSingleTool, hp]
  refine ⟨hp, hu, ?_⟩
  rw [hu]
  rcases hr : resolveHandler ctx.handlerFor ctx.searchDB call.name with _ | hdl
  · simp only [execWithArgs, hr]
    exact ⟨_, rfl⟩
  · simp only [execWithArgs, hr, execWithHandler]
    rcases hres : (retryExec call.call_id call.name index (hdl (.obj [])) 1 retries).result
      with v | m
    · simp only [hres]
      exact ⟨_, rfl⟩
    · simp only [hres]
      exact ⟨_, rfl⟩

/-- A tool call with an empty argument string. -/
def callEmptyArgs : ToolCall := ⟨"call_10", "sometool", some ""⟩

/-- C10, witness: with an empty argument string the call parses to `{}`,
proceeds to the execution phase, and its first event is `tool_start` with
empty args. -/
theorem executeSingleTool_empty_args_witness :
    parseArgs ctxBadJson.parseJson callEmptyArgs.arguments = some (.obj [])
    ∧ executeSingleTool ctxBadJson 1 callEmptyArgs 0
        = execWithArgs ctxBadJson.handlerFor ctxBadJson.searchDB 1 callEmptyArgs 0 (.obj [])
    ∧ (executeSingleTool ctxBadJson 1 callEmptyArgs 0).1
        = [.toolStart "call_10" "sometool" 0 (.obj []),
           .toolError "call_10" "sometool" 0 "Unknown tool: sometool"] := by
  have h := executeSingleTool_empty_args ctxBadJson 1 callEmptyArgs 0 (Or.inr rfl)
  exact ⟨h.1, h.2.1, rfl⟩

/-- C6: for a tool call with well-formed arguments, handler resolution
follows the source's fallback expression: a name with no entry in the
caller-supplied map that is not the reserved name "search_databases"
resolves to nothing — `executeSingleTool` emits `tool_start` then
`tool_error` (no retry, no throw) and returns the unknown-tool error
envelope; the reserved name "search_databases" with no map entry resolves
to the hardcoded default multi-database search tool, and execution is the
retried timed execution of exactly that handler. -/
theorem executeSingleTool_handler_resolution (ctx : ExecCtx) (retries : Nat)
    (call : ToolCall) (index : Nat) (args : JsValue)
    (hargs : parseArgs ctx.parseJson call.arguments = some args)
    (habsent : ctx.handlerFor call.name = none) :
    (call.name ≠ "search_databases" →
      resolveHandler ctx.handlerFor ctx.searchDB call.name = none
      ∧ executeSingleTool ctx retries call index
          = ([.toolStart call.call_id call.name index args,
              .toolError call.call_id call.name index ("Unknown tool: " ++ call.name)],
             ⟨call.call_id,
              stringify (.obj [("error", .str ("Unknown tool: " ++ call.name)),
                               ("args", args)])⟩))
    ∧ (call.name = "search_databases" →
      resolveHandler ctx.handlerFor ctx.searchDB call.name = some ctx.searchDB
      ∧ executeSingleTool ctx retries call index
          = execWithHandler ctx.searchDB retries call index args) := by
  constructor
  · intro hnm
    have hr : resolveHandler ctx.handlerFor ctx.searchDB call.name = none := by
      simp [resolveHandler, habsent, hnm]
    exact ⟨hr, by simp [executeSingleTool, hargs, execWithArgs, hr]⟩
  · intro hnm
    have habsent' : ctx.handlerFor "search_databases" = none := hnm ▸ habsent
    have hr : resolveHandler ctx.handlerFor ctx.searchDB call.name = some ctx.searchDB := by
      simp [resolveHandler, hnm, habsent']
    exact ⟨hr, by simp [executeSingleTool, hargs, execWithArgs, hr]⟩

/-- A tool call whose name has no handler anywhere. -/
def callUnknown : ToolCall := ⟨"call_6", "nope", none⟩

/-- C6, witness: the unresolvable name "nope" yields `tool_start` then
`tool_error` and the unknown-tool envelope, with no retry events. -/
theorem executeSingleTool_handler_resolution_witness :
    resolveHandler ctxBadJson.handlerFor ctxBadJson.searchDB "nope" = none
    ∧ executeSingleTool ctxBadJson 3 callUnknown 0
        = ([.toolStart "call_6" "nope" 0 (.obj []),
            .toolError "call_6" "nope" 0 "Unknown tool: nope"],
           ⟨"call_6",
            stringify (.obj [("error", .str "Unknown tool: nope"), ("args", .obj [])])⟩) := by
  have h := (executeSingleTool_handler_resolution ctxBadJson 3 callUnknown 0 (.obj [])
    rfl rfl).1 (by decide)
  exact ⟨h.1, h.2⟩

/-- How the promise of one queued task settles from `Promise.allSettled`'s
point of view (line 1123): fulfilled with `executeSingleTool`'s result, or
rejected.  Rejection cannot arise from `executeSingleTool` itself (all its
paths resolve) but `queue.add` may reject at the queue level; the spec
calls this the "should not normally happen" case.  `reason` carries the
`String(res.reason)` rendering of the rejection reason.  The queue has no
task timeout configured, so a fulfilled task always carries the real
result (the source's defensive `res.value?.` optional chaining never sees
undefined). -/
inductive TaskOutcome where
  | fulfilled
  | rejected (reason : String)

/-- One `function_call_output` entry as produced by `executeToolCalls`
(lines 1138-1154), after the final normalization `call_id ?? ""`,
`output ?? ""`. -/
structure OutputEntry where
  type : String
  call_id : String
  output : String

/-- Lines 1138-1142: the output entry for the `i`-th settled task — on
fulfillment the executor's result, on rejection the call's own `call_id`
with `JSON.stringify({ error: String(res.reason) })`. -/
def outputFor (ctx : ExecCtx) (retries : Nat) (call : ToolCall) (idx : Nat) :
    TaskOutcome → OutputEntry
  | .fulfilled =>
    let r := (executeSingleTool ctx retries call idx).2
    ⟨"function_call_output", r.call_id, r.output.getD ""⟩
  | .rejected reason =>
    ⟨"function_call_output", call.call_id,
     (stringify (.obj [("error", .str reason)])).getD ""⟩

/-- The settled results of `Promise.allSettled(calls.map((call, idx) => ...))`
mapped to output entries: `allSettled` returns results in input order
regardless of completion order, so the list is indexed by position —
completion-order independence is inherent. -/
def batchOutputs (ctx : ExecCtx) (retries : Nat) (settle : Nat → TaskOutcome) :
    List ToolCall → Nat → List OutputEntry
  | [], _ => []
  | c :: rest, i => outputFor ctx retries c i (settle i) :: batchOutputs ctx retries settle rest (i + 1)

/-- The per-call lifecycle events of the batch, concatenated in call
order.  (The true interleaving across concurrent tasks is
scheduler-dependent; no claim constrains cross-task event order, so the
model fixes a canonical serialization.) -/
def batchEvents (ctx : ExecCtx) (retries : Nat) :
    List ToolCall → Nat → List ToolChainEvent
  | [], _ => []
  | c :: rest, i => (executeSingleTool ctx retries c i).1 ++ batchEvents ctx retries rest (i + 1)

/-- Translation of `executeToolCalls` (src/src/v2.ts lines 1111-1155):
settle-all join over the queued executor tasks, one output entry per input
call, and one `outputs_appended` event after the batch with
`count = outputs.length` and `elapsedMs = Date.now() - startedAt` — the
two `Date.now()` reads are the parameters `t0` (line 1121) and `t1`
(line 1147). -/
def executeToolCalls (ctx : ExecCtx) (retries : Nat) (calls : List ToolCall)
    (settle : Nat → TaskOutcome) (t0 t1 : Nat) :
    List ToolChainEvent × List OutputEntry :=
  let outputs := batchOutputs ctx retries settle calls 0
  (batchEvents ctx retries calls 0 ++ [.outputsAppended outputs.length (t1 - t0)], outputs)

/-- The configuration options of `runToolChain` (lines 943-962), numeric
fields only; the `handlers` map is the `handlerFor` field of `ExecCtx` and
the string fields do not affect any claim. -/
structure ToolChainOpts where
  concurrency : Option Int
  intervalCap : Option Int
  interval : Option Int
  toolTimeoutMs : Option Int
  toolRetries : Option Int
  depth : Option Int
  totalDepth : Option Int

/-- Line 966: `const CONCURRENCY = Math.max(1, opts.concurrency ?? 2)`. -/
def CONCURRENCY (o : ToolChainOpts) : Nat := (max 1 (o.concurrency.getD 2)).toNat

/-- Line 968: `const TOOL_RETRIES = Math.max(0, opts.toolRetries ?? 1)`. -/
def TOOL_RETRIES (o : ToolChainOpts) : Nat := (max 0 (o.toolRetries.getD 1)).toNat

/-- One entry of the conversation array `input`: an opaque base message,
a `function_call` entry (pushed at lines 1038-1045), or a
`function_call_output` entry (pushed at line 1059). -/
inductive ConvEntry where
  | message (tag : Nat)
  | functionCall (name call_id : String) (arguments : Option String)
  | functionCallOutput (call_id output : String)

/-- Translation of `runToolChain` (src/src/v2.ts lines 938-1063).  The
planning round-trip `planToolCalls` is an external model call; its list of
`function_call` items is the parameter `planned`.  `input = [...baseInput]`
is copied, `chain_start` fires, and with zero planned calls the chain
short-circuits with `no_tools` then `chain_complete`, returning the input
unchanged; otherwise `planning_result` fires, one `function_call` entry
per planned call is appended, the batch executes, the outputs are
appended, and `chain_complete` fires with the final length. -/
def runToolChain (ctx : ExecCtx) (opts : ToolChainOpts) (baseInput : List ConvEntry)
    (planned : List ToolCall) (settle : Nat → TaskOutcome) (t0 t1 : Nat) :
    List ToolChainEvent × List ConvEntry :=
  let input := baseInput
  if planned.length = 0 then
    ([.chainStart input.length, .noTools, .chainComplete input.length], input)
  else
    let input1 := input ++ planned.map (fun c => ConvEntry.functionCall c.name c.call_id c.arguments)
    let r := executeToolCalls ctx (TOOL_RETRIES opts) planned settle t0 t1
    let input2 := input1 ++ r.2.map (fun o => ConvEntry.functionCallOutput o.call_id o.output)
    (.chainStart input.length
       :: .planningResult planned.length (planned.map ToolCall.name) (planned.map ToolCall.call_id)
       :: (r.1 ++ [.chainComplete input2.length]),
     input2)

/-- `executeSingleTool` always returns the input call's own `call_id`
(every branch copies `ref.callId = call.call_id`). -/
theorem executeSingleTool_call_id (ctx : ExecCtx) (retries : Nat)
    (call : ToolCall) (index : Nat) :
    (executeSingleTool ctx retries call index).2.call_id = call.call_id := by
  rcases hp : parseArgs ctx.parseJson call.arguments with _ | args
  · simp [executeSingleTool, hp]
  · rcases hr : resolveHandler ctx.handlerFor ctx.searchDB call.name with _ | h
    · simp [executeSingleTool, hp, execWithArgs, hr]
    · rcases hres : (retryExec call.call_id call.name index (h args) 1 retries).result with v | m
      · simp [executeSingleTool, hp, execWithArgs, hr, execWithHandler, hres]
      · simp [executeSingleTool, hp, execWithArgs, hr, execWithHandler, hres]

theorem outputFor_call_id (ctx : ExecCtx) (retries : Nat) (call : ToolCall)
    (idx : Nat) (t : TaskOutcome) :
    (outputFor ctx retries call idx t).call_id = call.call_id := by
  cases t with
  | fulfilled => simp [outputFor, executeSingleTool_call_id]
  | rejected reason => rfl

theorem batchOutputs_length (ctx : ExecCtx) (retries : Nat) (settle : Nat → TaskOutcome)
    (calls : List ToolCall) : ∀ i, (batchOutputs ctx retries settle calls i).length = calls.length := by
  induction calls with
  | nil => intro i; rfl
  | cons c rest ih => intro i; simp [batchOutputs, ih]

theorem batchOutputs_map_call_id (ctx : ExecCtx) (retries : Nat) (settle : Nat → TaskOutcome)
    (calls : List ToolCall) :
    ∀ i, (batchOutputs ctx retries settle calls i).map OutputEntry.call_id
      = calls.map ToolCall.call_id := by
  induction calls with
  | nil => intro i; rfl
  | cons c rest ih => intro i; simp [batchOutputs, outputFor_call_id, ih]

theorem batchOutputs_getElem (ctx : ExecCtx) (retries : Nat) (settle : Nat → TaskOutcome) :
    ∀ (calls : List ToolCall) (i j : Nat) (c : ToolCall), calls[j]? = some c →
      (batchOutputs ctx retries settle calls i)[j]?
        = some (outputFor ctx retries c (i + j) (settle (i + j))) := by
  intro calls
  induction calls with
  | nil => intro i j c hc; simp at hc
  | cons a rest ih =>
    intro i j c hc
    cases j with
    | zero =>
      simp only [List.getElem?_cons_zero, Option.some.injEq] at hc
      subst hc
      simp [batchOutputs]
    | succ j' =>
      simp only [List.getElem?_cons_succ] at hc
      have h := ih (i + 1) j' c hc
      have harith : i + (j' + 1) = i + 1 + j' := by omega
      simp only [batchOutputs, List.getElem?_cons_succ, harith]
      exact h

/-- Recognizer for the `outputs_appended` event. -/
def isOutputsAppendedEv : ToolChainEvent → Bool
  | .outputsAppended _ _ => true
  | _ => false

theorem retryExec_no_outputsAppended (cid nm : String) (idx : Nat) (run : Nat → ExecOutcome) :
    ∀ (fuel attempt : Nat) (e : ToolChainEvent),
      e ∈ (retryExec cid nm idx run attempt fuel).events → isOutputsAppendedEv e = false := by
  intro fuel
  induction fuel with
  | zero =>
    intro attempt e he
    rcases hr : run attempt with v | m <;>
      · simp only [retryExec, hr] at he
        simp only [List.mem_singleton] at he
        subst he
        rfl
  | succ fuel ih =>
    intro attempt e he
    rcases hr : run attempt with v | m
    · simp only [retryExec, hr] at he
      simp only [List.mem_singleton] at he
      subst he
      rfl
    · simp only [retryExec, hr, List.mem_cons] at he
      rcases he with he | he
      · subst he; rfl
      · exact ih (attempt + 1) e he

theorem executeSingleTool_no_outputsAppended (ctx : ExecCtx) (retries : Nat)
    (call : ToolCall) (index : Nat) :
    ∀ e ∈ (executeSingleTool ctx retries call index).1, isOutputsAppendedEv e = false := by
  intro e he
  rcases hp : parseArgs ctx.parseJson call.arguments with _ | args
  · simp only [executeSingleTool, hp, List.mem_singleton] at he
    subst he; rfl
  · simp only [executeSingleTool, hp] at he
    rcases hr : resolveHandler ctx.handlerFor ctx.searchDB call.name with _ | h
    · simp only [execWithArgs, hr, List.mem_cons, List.not_mem_nil, or_false] at he
      rcases he with he | he
      · subst he; rfl
      · subst he; rfl
    · rcases hres : (retryExec call.call_id call.name index (h args) 1 retries).result with m | v
      · simp only [execWithArgs, hr, execWithHandler, hres, List.mem_cons, List.mem_append,
          List.mem_singleton, List.not_mem_nil, or_false] at he
        rcases he with he | he | he
        · subst he; rfl
        · exact retryExec_no_outputsAppended call.call_id call.name index (h args) retries 1 e he
        · subst he; rfl
      · simp only [execWithArgs, hr, execWithHandler, hres, List.mem_cons] at he
        rcases he with he | he
        · subst he; rfl
        · exact retryExec_no_outputsAppended call.call_id call.name index (h args) retries 1 e he

theorem batchEvents_no_outputsAppended (ctx : ExecCtx) (retries : Nat) :
    ∀ (calls : List ToolCall) (i : Nat),
      (batchEvents ctx retries calls i).filter isOutputsAppendedEv = [] := by
  intro calls
  induction calls with
  | nil => intro i; rfl
  | cons c rest ih =>
    intro i
    rw [batchEvents, List.filter_append, ih (i + 1), List.append_nil]
    rw [List.filter_eq_nil_iff]
    intro e he
    simp [executeSingleTool_no_outputsAppended ctx retries c i e he]

/-- C5: when the planning round-trip returns zero function-call items,
`runToolChain` emits `chain_start`, then `no_tools` immediately followed by
`chain_complete`, and returns the conversation structurally identical to
the input — no `function_call` or `function_call_output` entry is appended
and no `tool_start`/`tool_success`/`tool_error` event is emitted (the
event list is exactly those three events). -/
theorem runToolChain_no_tools (ctx : ExecCtx) (opts : ToolChainOpts)
    (baseInput : List ConvEntry) (settle : Nat → TaskOutcome) (t0 t1 : Nat) :
    runToolChain ctx opts baseInput [] settle t0 t1
      = ([.chainStart baseInput.length, .noTools, .chainComplete baseInput.length],
         baseInput) := rfl

/-- C1: for every batch, the output list of `executeToolCalls` has the same
length as the input list and carries the input calls' identifiers
positionally — hence equal as multisets, with no duplicates and no
omissions beyond those of the input; this holds for every settlement
pattern (`Promise.allSettled` indexes results by input position, so it is
independent of completion order).  Consequently the conversation returned
by `runToolChain` is the input followed by one `function_call` entry per
planned call followed by the outputs, and — the planner's call identifiers
being distinct, as the provider guarantees — every appended
`function_call` is matched by exactly one `function_call_output` carrying
its identifier. -/
theorem runToolChain_call_pairing (ctx : ExecCtx) (opts : ToolChainOpts)
    (baseInput : List ConvEntry) (calls : List ToolCall) (settle : Nat → TaskOutcome)
    (t0 t1 : Nat) (hne : calls ≠ [])
    (hnodup : (calls.map ToolCall.call_id).Nodup) :
    ((executeToolCalls ctx (TOOL_RETRIES opts) calls settle t0 t1).2.length = calls.length)
    ∧ ((executeToolCalls ctx (TOOL_RETRIES opts) calls settle t0 t1).2.map OutputEntry.call_id
        = calls.map ToolCall.call_id)
    ∧ ((((executeToolCalls ctx (TOOL_RETRIES opts) calls settle t0 t1).2.map
          OutputEntry.call_id : List String) : Multiset String)
        = ((calls.map ToolCall.call_id : List String) : Multiset String))
    ∧ ((runToolChain ctx opts baseInput calls settle t0 t1).2
        = baseInput
            ++ calls.map (fun c => ConvEntry.functionCall c.name c.call_id c.arguments)
            ++ (executeToolCalls ctx (TOOL_RETRIES opts) calls settle t0 t1).2.map
                 (fun o => ConvEntry.functionCallOutput o.call_id o.output))
    ∧ (∀ c ∈ calls,
        ((executeToolCalls ctx (TOOL_RETRIES opts) calls settle t0 t1).2.map
            OutputEntry.call_id).count c.call_id = 1) := by
  have h2 : (executeToolCalls ctx (TOOL_RETRIES opts) calls settle t0 t1).2
      = batchOutputs ctx (TOOL_RETRIES opts) settle calls 0 := rfl
  have hmap := batchOutputs_map_call_id ctx (TOOL_RETRIES opts) settle calls 0
  refine ⟨?_, ?_, ?_, ?_, ?_⟩
  · rw [h2]; exact batchOutputs_length _ _ _ _ 0
  · rw [h2]; exact hmap
  · rw [h2, hmap]
  · rw [runToolChain, if_neg (by simpa using hne)]
  · intro c hc
    rw [h2, hmap]
    exact List.count_eq_one_of_mem hnodup (List.mem_map_of_mem _ hc)

/-- Context for batch witnesses: every handler succeeds immediately with
`null`. -/
def ctxPair : ExecCtx :=
  ⟨fun _ => none, fun _ => some (fun _ _ => .ok .null), fun _ _ => .err "unused"⟩

/-- A two-call batch with distinct call identifiers. -/
def callsPair : List ToolCall := [⟨"a", "t1", none⟩, ⟨"b", "t2", none⟩]

/-- All configuration options absent (the source defaults apply). -/
def optsDefault : ToolChainOpts := ⟨none, none, none, none, none, none, none⟩

/-- C1, witness: the two-call batch yields outputs carrying exactly the
call identifiers "a", "b", each matched exactly once. -/
theorem runToolChain_call_pairing_witness :
    ((executeToolCalls ctxPair (TOOL_RETRIES optsDefault) callsPair
        (fun _ => .fulfilled) 5 9).2.map OutputEntry.call_id = ["a", "b"])
    ∧ (∀ c ∈ callsPair,
        ((executeToolCalls ctxPair (TOOL_RETRIES optsDefault) callsPair
            (fun _ => .fulfilled) 5 9).2.map OutputEntry.call_id).count c.call_id = 1) := by
  have h := runToolChain_call_pairing ctxPair optsDefault [] callsPair
    (fun _ => .fulfilled) 5 9 (by simp [callsPair]) (by decide)
  exact ⟨h.2.1.trans rfl, h.2.2.2.2⟩

/-- C7: the batch join is settle-all, never fail-fast: a rejected task at
position `i` does not cancel its siblings — the `i`-th output entry still
appears, carrying that call's own `call_id` and the serialized
`{ error: String(reason) }` envelope, every fulfilled sibling keeps its
executor result, and after the batch exactly one `outputs_appended` event
fires, whose `count` is the number of input calls and whose `elapsedMs`
is the wall-clock duration `t1 - t0` of the batch. -/
theorem executeToolCalls_settle_all (ctx : ExecCtx) (retries : Nat) (calls : List ToolCall)
    (settle : Nat → TaskOutcome) (t0 t1 : Nat) (i : Nat) (c : ToolCall) (reason : String)
    (hc : calls[i]? = some c) (hrej : settle i = .rejected reason) :
    (executeToolCalls ctx retries calls settle t0 t1).2.length = calls.length
    ∧ (executeToolCalls ctx retries calls settle t0 t1).2[i]?
        = some ⟨"function_call_output", c.call_id,
                (stringify (.obj [("error", .str reason)])).getD ""⟩
    ∧ (∀ (j : Nat) (c' : ToolCall), calls[j]? = some c' → settle j = .fulfilled →
        (executeToolCalls ctx retries calls settle t0 t1).2[j]?
          = some ⟨"function_call_output", c'.call_id,
                  (executeSingleTool ctx retries c' j).2.output.getD ""⟩)
    ∧ (executeToolCalls ctx retries calls settle t0 t1).1.filter isOutputsAppendedEv
        = [.outputsAppended calls.length (t1 - t0)] := by
  have h2 : (executeToolCalls ctx retries calls settle t0 t1).2
      = batchOutputs ctx retries settle calls 0 := rfl
  have h1 : (executeToolCalls ctx retries calls settle t0 t1).1
      = batchEvents ctx retries calls 0
          ++ [.outputsAppended (batchOutputs ctx retries settle calls 0).length (t1 - t0)] := rfl
  refine ⟨?_, ?_, ?_, ?_⟩
  · rw [h2]; exact batchOutputs_length _ _ _ _ 0
  · have h := batchOutputs_getElem ctx retries settle calls 0 i c hc
    rw [h2, h]
    simp only [Nat.zero_add, hrej]
    rfl
  · intro j c' hc' hful
    have h := batchOutputs_getElem ctx retries settle calls 0 j c' hc'
    rw [h2, h]
    simp only [Nat.zero_add, hful]
    simp [outputFor, executeSingleTool_call_id]
  · rw [h1, List.filter_append, batchEvents_no_outputsAppended, List.nil_append,
      batchOutputs_length]
    rfl

/-- A two-call batch where the first task's promise rejects. -/
def callsBatch : List ToolCall := [⟨"c1", "ta", none⟩, ⟨"c2", "tb", none⟩]

/-- A settlement pattern rejecting exactly task 0. -/
def settleBatch : Nat → TaskOutcome := fun i => if i = 0 then .rejected "boom" else .fulfilled

/-- C7, witness: task 0 rejects with "boom" — its output still appears with
call_id "c1" and the error envelope, the fulfilled sibling keeps its
result, and the single `outputs_appended` event carries count 2 and the
batch duration 4. -/
theorem executeToolCalls_settle_all_witness :
    (executeToolCalls ctxPair 1 callsBatch settleBatch 5 9).2[0]?
      = some ⟨"function_call_output", "c1", (stringify (.obj [("error", .str "boom")])).getD ""⟩
    ∧ (executeToolCalls ctxPair 1 callsBatch settleBatch 5 9).2[1]?
      = some ⟨"function_call_output", "c2",
              (executeSingleTool ctxPair 1 ⟨"c2", "tb", none⟩ 1).2.output.getD ""⟩
    ∧ (executeToolCalls ctxPair 1 callsBatch settleBatch 5 9).1.filter isOutputsAppendedEv
      = [.outputsAppended 2 4] := by
  have h := executeToolCalls_settle_all ctxPair 1 callsBatch settleBatch 5 9 0
    ⟨"c1", "ta", none⟩ "boom" rfl rfl
  exact ⟨h.2.1, h.2.2.1 1 ⟨"c2", "tb", none⟩ rfl rfl, h.2.2.2.trans rfl⟩

/-- One item of the streaming response (source type `StreamItem`,
src/src/v2.ts lines 633-636); the error payload is abstracted to a
string. -/
inductive StreamItem where
  | text (delta : String)
  | refusal (delta : String)
  | error (msg : String)

/-- The observable state of the streaming aggregator of `extractData`
(lines 863-891): the internal FIFO `queue` buffer, the `done` flag flipped
by the `finally` handler of `finalResponse()`, the sequence of items the
iterator has yielded so far, the sequence of all items the event listeners
have pushed so far (in arrival order), and whether the iteration loop has
exited. -/
structure AggState where
  buffer : List StreamItem
  done : Bool
  yielded : List StreamItem
  pushed : List StreamItem
  finished : Bool

/-- The aggregator before any event: empty buffer, completion pending,
loop running. -/
def aggInit : AggState := ⟨[], false, [], [], false⟩

/-- The interleaved small steps of the aggregator (lines 863-891), one
constructor per suspension-point transition:
* `push` — an event listener appends one item to the tail of the buffer
  (`queue.push`), any time before the loop has exited;
* `complete` — the completion future settles and its cleanup handler sets
  `done = true`;
* `pull` — a loop iteration with non-empty buffer dequeues the oldest item
  (`queue.shift()`) and yields it;
* `finish` — a loop iteration observing `done` and an empty buffer exits
  the loop (the `while (!done || queue.length)` guard fails), terminating
  the sequence.
After `finish` no step applies: the state is terminal. -/
inductive AggStep : AggState → AggState → Prop where
  | push (s : AggState) (it : StreamItem) (h : s.finished = false) :
      AggStep s ⟨s.buffer ++ [it], s.done, s.yielded, s.pushed ++ [it], s.finished⟩
  | complete (s : AggState) (h : s.finished = false) :
      AggStep s ⟨s.buffer, true, s.yielded, s.pushed, s.finished⟩
  | pull (s : AggState) (it : StreamItem) (rest : List StreamItem)
      (hf : s.finished = false) (hb : s.buffer = it :: rest) :
      AggStep s ⟨rest, s.done, s.yielded ++ [it], s.pushed, s.finished⟩
  | finish (s : AggState) (hf : s.finished = false) (hd : s.done = true)
      (hb : s.buffer = []) :
      AggStep s ⟨[], true, s.yielded, s.pushed, true⟩

/-- Finitely many aggregator steps. -/
inductive AggReachable : AggState → AggState → Prop where
  | refl (s : AggState) : AggReachable s s
  | step (s t u : AggState) : AggReachable s t → AggStep t u → AggReachable s u

theorem aggStep_invariant (s t : AggState) (hst : AggStep s t)
    (h1 : s.pushed = s.yielded ++ s.buffer)
    (h2 : s.finished = true → s.done = true ∧ s.buffer = []) :
    t.pushed = t.yielded ++ t.buffer
    ∧ (t.finished = true → t.done = true ∧ t.buffer = []) := by
  cases hst with
  | push it h =>
    refine ⟨by simp [h1], fun hf => ?_⟩
    simp [h] at hf
  | complete h =>
    refine ⟨h1, fun hf => ?_⟩
    simp [h] at hf
  | pull it rest hf hb =>
    refine ⟨by simp [h1, hb], fun hfin => ?_⟩
    simp [hf] at hfin
  | finish hf hd hb =>
    exact ⟨by simp [h1, hb], fun _ => ⟨rfl, rfl⟩⟩

/-- C4: in every run of the aggregator, (1) the pushed sequence is the
yielded sequence followed by the buffer — so items are yielded in exactly
push (FIFO) order and nothing in the buffer is lost; (2) if the iteration
has terminated then the completion future had resolved, the buffer was
empty, and every pushed item had been yielded (no item pushed before
completion is dropped); (3) conversely, whenever the loop is live with the
completion resolved and the buffer drained, the terminating step is
enabled — iteration terminates once, and only once, done is set and the
buffer is empty. -/
theorem aggregator_fifo_termination (s : AggState) (h : AggReachable aggInit s) :
    s.pushed = s.yielded ++ s.buffer
    ∧ (s.finished = true → s.done = true ∧ s.buffer = [] ∧ s.yielded = s.pushed)
    ∧ (s.finished = false → s.done = true → s.buffer = [] →
        AggStep s ⟨[], true, s.yielded, s.pushed, true⟩) := by
  have main : s.pushed = s.yielded ++ s.buffer
      ∧ (s.finished = true → s.done = true ∧ s.buffer = []) := by
    induction h with
    | refl => exact ⟨rfl, fun hf => by cases hf⟩
    | step t u hr hst ih => exact aggStep_invariant t u hst ih.1 ih.2
  refine ⟨main.1, ?_, ?_⟩
  · intro hf
    obtain ⟨hd, hb⟩ := main.2 hf
    exact ⟨hd, hb, by rw [main.1, hb, List.append_nil]⟩
  · intro hf hd hb
    exact AggStep.finish s hf hd hb

/-- C4, witness: the scripted run push "Hel", push "lo", complete, pull,
pull, finish reaches a terminal state whose yielded sequence equals the
pushed sequence in order, with the buffer drained and done set. -/
theorem aggregator_fifo_termination_witness :
    AggState.pushed ⟨[], true, [.text "Hel", .text "lo"], [.text "Hel", .text "lo"], true⟩
      = AggState.yielded ⟨[], true, [.text "Hel", .text "lo"], [.text "Hel", .text "lo"], true⟩
        ++ AggState.buffer ⟨[], true, [.text "Hel", .text "lo"], [.text "Hel", .text "lo"], true⟩
    ∧ AggState.yielded ⟨[], true, [.text "Hel", .text "lo"], [.text "Hel", .text "lo"], true⟩
      = AggState.pushed ⟨[], true, [.text "Hel", .text "lo"], [.text "Hel", .text "lo"], true⟩ := by
  have h1 : AggStep aggInit ⟨[.text "Hel"], false, [], [.text "Hel"], false⟩ :=
    AggStep.push aggInit (.text "Hel") rfl
  have h2 : AggStep ⟨[.text "Hel"], false, [], [.text "Hel"], false⟩
      ⟨[.text "Hel", .text "lo"], false, [], [.text "Hel", .text "lo"], false⟩ :=
    AggStep.push ⟨[.text "Hel"], false, [], [.text "Hel"], false⟩ (.text "lo") rfl
  have h3 : AggStep ⟨[.text "Hel", .text "lo"], false, [], [.text "Hel", .text "lo"], false⟩
      ⟨[.text "Hel", .text "lo"], true, [], [.text "Hel", .text "lo"], false⟩ :=
    AggStep.complete ⟨[.text "Hel", .text "lo"], false, [], [.text "Hel", .text "lo"], false⟩ rfl
  have h4 : AggStep ⟨[.text "Hel", .text "lo"], true, [], [.text "Hel", .text "lo"], false⟩
      ⟨[.text "lo"], true, [.text "Hel"], [.text "Hel", .text "lo"], false⟩ :=
    AggStep.pull ⟨[.text "Hel", .text "lo"], true, [], [.text "Hel", .text "lo"], false⟩
      (.text "Hel") [.text "lo"] rfl rfl
  have h5 : AggStep ⟨[.text "lo"], true, [.text "Hel"], [.text "Hel", .text "lo"], false⟩
      ⟨[], true, [.text "Hel", .text "lo"], [.text "Hel", .text "lo"], false⟩ :=
    AggStep.pull ⟨[.text "lo"], true, [.text "Hel"], [.text "Hel", .text "lo"], false⟩
      (.text "lo") [] rfl rfl
  have h6 : AggStep ⟨[], true, [.text "Hel", .text "lo"], [.text "Hel", .text "lo"], false⟩
      ⟨[], true, [.text "Hel", .text "lo"], [.text "Hel", .text "lo"], true⟩ :=
    AggStep.finish ⟨[], true, [.text "Hel", .text "lo"], [.text "Hel", .text "lo"], false⟩
      rfl rfl rfl
  have hreach : AggReachable aggInit
      ⟨[], true, [.text "Hel", .text "lo"], [.text "Hel", .text "lo"], true⟩ :=
    .step _ _ _ (.step _ _ _ (.step _ _ _ (.step _ _ _ (.step _ _ _
      (.step _ _ _ (.refl _) h1) h2) h3) h4) h5) h6
  have h := aggregator_fifo_termination _ hreach
  exact ⟨h.1, (h.2.1 rfl).2.2⟩

/-- The observable state of the bounded-concurrency work queue: which task
indices are still queued, which are currently running inside the Executor,
and which have completed. -/
structure SchedState where
  pending : List Nat
  running : List Nat
  completed : List Nat

/-- Small-step semantics of the `PQueue` configured at lines 975-981,
modelled from the p-queue dependency's bounded-concurrency contract: a
queued task may start only while strictly fewer than `K` tasks are
running (p-queue's `pendingCount < concurrency` admission check), and a
running task may complete at any time, freeing its slot.  `K` is the
queue's `concurrency` option, which `runToolChain` sets to
`CONCURRENCY opts`. -/
inductive SchedStep (K : Nat) : SchedState → SchedState → Prop where
  | start (i : Nat) (rest running completed : List Nat) (h : running.length < K) :
      SchedStep K ⟨i :: rest, running, completed⟩ ⟨rest, i :: running, completed⟩
  | finish (pending l1 l2 completed : List Nat) (i : Nat) :
      SchedStep K ⟨pending, l1 ++ i :: l2, completed⟩ ⟨pending, l1 ++ l2, i :: completed⟩

/-- Finitely many scheduler steps. -/
inductive SchedReachable (K : Nat) : SchedState → SchedState → Prop where
  | refl (s : SchedState) : SchedReachable K s s
  | step (s t u : SchedState) :
      SchedReachable K s t → SchedStep K t u → SchedReachable K s u

/-- The queue state when `N` tool calls have been submitted and none has
started. -/
def initSched (N : Nat) : SchedState := ⟨List.range N, [], []⟩

theorem schedStep_running_le (K : Nat) (s t : SchedState) (h : SchedStep K s t)
    (hs : s.running.length ≤ K) : t.running.length ≤ K := by
  cases h with
  | start i rest running completed hlt => simpa using hlt
  | finish pending l1 l2 completed i =>
    simp only [List.length_append, List.length_cons] at hs ⊢
    omega

/-- C9: when `N` tool calls are submitted to the scheduler with the
concurrency cap `K = CONCURRENCY opts = max(1, opts.concurrency ?? 2)`
and `K < N`, no reachable queue state has more than `K` Executor
invocations running simultaneously. -/
theorem scheduler_concurrency_cap (opts : ToolChainOpts) (N : Nat) (s : SchedState)
    (hKN : CONCURRENCY opts < N)
    (h : SchedReachable (CONCURRENCY opts) (initSched N) s) :
    s.running.length ≤ CONCURRENCY opts := by
  induction h with
  | refl => simp [initSched]
  | step t u hr hst ih => exact schedStep_running_le _ _ _ hst ih

/-- Options pinning the concurrency cap to 1. -/
def optsOne : ToolChainOpts := ⟨some 1, none, none, none, none, none, none⟩

/-- C9, witness: two tasks submitted under cap 1; after starting the first
task the reachable state runs exactly one task, within the cap. -/
theorem scheduler_concurrency_cap_witness :
    (SchedState.running ⟨[1], [0], []⟩).length ≤ CONCURRENCY optsOne := by
  have hstep : SchedStep (CONCURRENCY optsOne) (initSched 2) ⟨[1], [0], []⟩ :=
    SchedStep.start 0 [1] [] [] (by decide)
  have hreach : SchedReachable (CONCURRENCY optsOne) (initSched 2) ⟨[1], [0], []⟩ :=
    .step _ _ _ (.refl _) hstep
  exact scheduler_concurrency_cap optsOne 2 ⟨[1], [0], []⟩ (by decide) hreach
